import Mathlib

/-!
# Virtual camera output (`plugins/linux-v4l2/v4l2-output.c`)

A shallow embedding of the V4L2 loopback output plugin and the properties
proved about it.

Conventions of the embedding:

* a byte is a `Nat`; a NUL-terminated C string is the `List Nat` of the bytes
  before the terminator, and reading through a pointer that has reached the
  terminator yields `0` (`List.headD _ 0`);
* C `int` and `ssize_t` values are `Int`; `uint32_t` values are `Nat`
  reduced modulo `2 ^ 32` where the C arithmetic wraps;
* the operating system and the OBS core are an explicit `Host` record of
  simulated return values, and every call that leaves the plugin is logged
  as an `Event`, in program order.
-/

namespace V4l2Output

/-! ## `__strverscmp` -/

/-- Bytes of a string literal. -/
def bytes (s : String) : List Nat := s.toList.map Char.toNat

/-- The `isdigit` test of `<ctype.h>` (C locale): the bytes `'0'` .. `'9'`. -/
def isdigit (c : Nat) : Bool := decide (48 ≤ c) && decide (c ≤ 57)

/-- Symbol class used to index the tables: `(c == '0') + (isdigit (c) != 0)`,
so `0` for other bytes, `1` for `'1'..'9'` and `2` for `'0'`. -/
def symbol (c : Nat) : Nat :=
  (if c = 48 then 1 else 0) + (if isdigit c then 1 else 0)

/-- State `S_N`: normal. -/
def S_N : Nat := 0
/-- State `S_I`: comparing integral part. -/
def S_I : Nat := 3
/-- State `S_F`: comparing fractional parts. -/
def S_F : Nat := 6
/-- State `S_Z`: fractional parts with leading zeroes only. -/
def S_Z : Nat := 9
/-- Result type `CMP`: return `diff`. -/
def CMP : Int := 2
/-- Result type `LEN`: compare using the lengths of the digit runs. -/
def LEN : Int := 3

/-- The table `next_state[]`, rows `S_N, S_I, S_F, S_Z`, columns `x, d, 0`. -/
def next_state : List Nat :=
  [S_N, S_I, S_Z,
   S_N, S_I, S_I,
   S_N, S_F, S_F,
   S_N, S_F, S_Z]

/-- The table `result_type[]`, rows `S_N, S_I, S_F, S_Z`, columns
`x/x x/d x/0 d/x d/d d/0 0/x 0/d 0/0`. -/
def result_type : List Int :=
  [CMP, CMP, CMP, CMP, LEN, CMP, CMP, CMP, CMP,
   CMP, -1,  -1,  1,   LEN, LEN, 1,   LEN, LEN,
   CMP, CMP, CMP, CMP, CMP, CMP, CMP, CMP, CMP,
   CMP, 1,   1,   -1,  CMP, CMP, -1,  CMP, CMP]

/-- The `LEN` branch:
`while (isdigit (*p1++)) if (!isdigit (*p2++)) return 1;`
`return isdigit (*p2) ? -1 : diff;`
with `p1`, `p2` the strings the two pointers point at. -/
def len_loop (diff : Int) : List Nat → List Nat → Int
  | [], p2 => if isdigit (p2.headD 0) then -1 else diff
  | a :: p1, p2 =>
    if isdigit a then
      if !isdigit (p2.headD 0) then 1 else len_loop diff p1 p2.tail
    else if isdigit (p2.headD 0) then -1 else diff

/-- The code after the `while` loop: the lookup
`state = result_type[state * 3 + (((c2 == '0') + (isdigit (c2) != 0)))]`
and the `switch` on it.  Here `c1`, `c2` are the bytes last read and `p1`,
`p2` the strings the (already advanced) pointers point at. -/
def after_loop (state : Nat) (c1 c2 : Nat) (p1 p2 : List Nat) : Int :=
  let diff : Int := (c1 : Int) - (c2 : Int)
  let state : Int := result_type.getD (state * 3 + symbol c2) 0
  if state = CMP then diff
  else if state = LEN then len_loop diff p1 p2
  else state

/-- The loop `while ((diff = c1 - c2) == 0) { ... }` followed by the rest of
the function.  The first argument is the first string from the byte `c1`
on (`c1 :: p1`, or `[]` when `c1` is the terminator), the second argument is
the second string from `c2` on, and `state` already includes the class of
`c1`. -/
def while_loop : List Nat → List Nat → Nat → Int
  | [], s2, state =>
    if (0 : Int) - ((s2.headD 0 : Nat) : Int) = 0 then 0
    else after_loop state 0 (s2.headD 0) [] s2.tail
  | c1 :: p1, s2, state =>
    if (c1 : Int) - ((s2.headD 0 : Nat) : Int) = 0 then
      if c1 = 0 then 0
      else while_loop p1 s2.tail (next_state.getD state 0 + symbol (p1.headD 0))
    else after_loop state c1 (s2.headD 0) p1 s2.tail

/-- The function `__strverscmp (s1, s2)` on the contents of the two strings.
The shortcut `if (p1 == p2) return 0;` compares addresses; equal addresses
hold equal contents, on which the loop returns `0` as well
(`strverscmp_self`). -/
def __strverscmp (s1 s2 : List Nat) : Int :=
  while_loop s1 s2 (S_N + symbol (s1.headD 0))

/-- The comparator `versionsort (a, b)`: `__strverscmp` on the two `d_name`s. -/
def versionsort (a b : List Nat) : Int := __strverscmp a b

/-- Decimal notation of a natural number without leading zeros, as bytes. -/
def decimal (n : Nat) : List Nat :=
  if n = 0 then [48] else ((Nat.digits 10 n).reverse.map (fun d => 48 + d))

/-- Value of a string of decimal digit bytes, most significant digit first. -/
def digits_value : List Nat → Nat
  | [] => 0
  | c :: cs => (c - 48) * 10 ^ cs.length + digits_value cs

/-- Order of two digit strings of the same length by their first difference. -/
def digits_lt : List Nat → List Nat → Prop
  | x :: xs, y :: ys => x < y ∨ (x = y ∧ digits_lt xs ys)
  | _, _ => False

/-- Numeric order of two digit strings read as integers, when neither has a
leading zero to be skipped: a shorter run is smaller, runs of equal length
compare by their first difference. -/
def run_lt (xs ys : List Nat) : Prop :=
  xs.length < ys.length ∨ (xs.length = ys.length ∧ digits_lt xs ys)

/-- Two comparison results of opposite sign. -/
def Opposite (x y : Int) : Prop := (x < 0 ↔ 0 < y) ∧ (x = 0 ↔ y = 0)

/-! ## `loopback_module_loaded` -/

/-- The name searched for in `/proc/modules`: `"v4l2loopback"`. -/
def module_name : List Nat := bytes "v4l2loopback"

/-- The bytes one `fgets` call stores and the rest of the stream, when at most
`n` bytes may be stored: reading stops after a newline, at end of file, or
when `n` bytes have been stored. -/
def fgets_read : Nat → List Nat → List Nat × List Nat
  | 0, s => ([], s)
  | _ + 1, [] => ([], [])
  | n + 1, c :: s =>
    if c = 10 then ([c], s)
    else ((c :: (fgets_read n s).1), (fgets_read n s).2)

/-- The call `fgets (temp, size, fp)`: `none` is the `NULL` returned at end of
file when no byte was read, otherwise the bytes stored in `temp` (at most
`size - 1`, a terminator is appended after them) and the rest of the stream. -/
def fgets (size : Nat) (fp : List Nat) : Option (List Nat × List Nat) :=
  match fp with
  | [] => none
  | _ :: _ => some (fgets_read (size - 1) fp)

/-- The C string held by a buffer: its bytes up to the first NUL. -/
def c_string (buf : List Nat) : List Nat := buf.takeWhile (fun c => c != 0)

/-- Whether `strstr (haystack, needle)` is non-`NULL`: `needle` occurs at some
position of `haystack`. -/
def strstr : List Nat → List Nat → Bool
  | [], needle => needle.isEmpty
  | c :: h, needle => needle.isPrefixOf (c :: h) || strstr h needle

/-- The loop `while (fgets (temp, sizeof (temp), fp)) { if (strstr (temp,
"v4l2loopback")) { loaded = true; break; } }` with `char temp[512]`; the
result is `loaded`.  Every pass consumes at least one byte of the stream, so
`fuel` above the length of the stream is never used up
(`loaded_loop_fuel`). -/
def loaded_loop : Nat → List Nat → Bool
  | 0, _ => false
  | fuel + 1, fp =>
    match fgets 512 fp with
    | none => false
    | some (temp, rest) =>
      if strstr (c_string temp) module_name then true else loaded_loop fuel rest

/-- The function `loopback_module_loaded ()`.  The argument is the outcome of
`fopen ("/proc/modules", "r")`: `none` when the file cannot be opened,
otherwise its content. -/
def loopback_module_loaded (proc_modules : Option (List Nat)) : Bool :=
  match proc_modules with
  | none => false
  | some fp => loaded_loop (fp.length + 1) fp

/-- The lines of a text: the runs between newline bytes. -/
def lines : List Nat → List (List Nat)
  | [] => [[]]
  | c :: s =>
    if c = 10 then [] :: lines s
    else
      match lines s with
      | [] => [[c]]
      | l :: ls => (c :: l) :: ls

/-- A long line: 505 bytes `x`, then the module name, then a newline. -/
def long_line : List Nat := List.replicate 505 120 ++ module_name ++ [10]

/-- A line with a NUL byte before the module name. -/
def nul_line : List Nat := 0 :: module_name ++ [10]

/-! ## The session, the host and the calls that leave the plugin -/

/-- The record `struct virtualcam_data`: the output handle, the descriptor of
the device (`int device`) and the byte size of a frame (`uint32_t frame_size`). -/
structure virtualcam_data where
  output : Nat
  device : Int
  frame_size : Nat
  deriving DecidableEq, Repr

/-- The fields of `struct v4l2_streamparm` that `try_connect` sets after the
`memset`: `type`, `parm.output.capability` and `parm.output.timeperframe`. -/
structure v4l2_streamparm where
  type : Nat
  capability : Nat
  numerator : Nat
  denominator : Nat
  deriving DecidableEq, Repr

/-- The record `struct v4l2_format`: `type`, the four `fmt.pix` fields that
`try_connect` overwrites, and the remaining fields as the driver left them. -/
structure v4l2_format where
  type : Nat
  width : Nat
  height : Nat
  pixelformat : Nat
  sizeimage : Nat
  driver : Nat
  deriving DecidableEq, Repr

/-- The record `struct video_scale_info` as `try_connect` fills it. -/
structure video_scale_info where
  format : Nat
  width : Nat
  height : Nat
  deriving DecidableEq, Repr

/-- Simulated behaviour of one device node: the value returned by `open` and
by each of the four `ioctl` requests, and the driver defaults that
`VIDIOC_G_FMT` stores. -/
structure device_node where
  open_ret : Int
  querycap_ret : Int
  g_fmt_ret : Int
  g_fmt_driver : Nat
  s_parm_ret : Int
  s_fmt_ret : Int

/-- The environment of the plugin: the size and frame rate configured in the
OBS core, the content of `/proc/modules` (`none` when it cannot be opened),
the exit status of the module load command, the result of
`scandir ("/dev", &list, scanfilter, versionsort)` (`none` for `-1`, otherwise
the selected names in sorted order) and the device node behind each path. -/
structure Host where
  width : Nat
  height : Nat
  fps_num : Nat
  fps_den : Nat
  proc_modules : Option (List Nat)
  modprobe_ret : Int
  scandir : Option (List (List Nat))
  node : List Nat → device_node

/-- A call that leaves the plugin, with its arguments and its result. -/
inductive Event where
  | run_command (command : String) (ret : Int)
  | open_call (path : List Nat) (flags : Nat) (ret : Int)
  | querycap (fd : Int) (ret : Int)
  | g_fmt (fd : Int) (type : Nat) (ret : Int)
  | s_parm (fd : Int) (parm : v4l2_streamparm) (ret : Int)
  | s_fmt (fd : Int) (format : v4l2_format) (ret : Int)
  | set_video_conversion (output : Nat) (vsi : video_scale_info)
  | begin_data_capture (output : Nat)
  | end_data_capture (output : Nat)
  | close (fd : Int)
  deriving DecidableEq, Repr

/-- Modelled from the spec: the open mode "for read/write"; the value of
`O_RDWR` comes from `<fcntl.h>`, which is not part of the sources. -/
def O_RDWR : Nat := 2

/-- Modelled from the spec: the buffer type of a video output stream; the
value of `V4L2_BUF_TYPE_VIDEO_OUTPUT` comes from `<linux/videodev2.h>`, which
is not part of the sources. -/
def V4L2_BUF_TYPE_VIDEO_OUTPUT : Nat := 2

/-- Modelled from the spec: the capability flag "time-per-frame supported";
the value of `V4L2_CAP_TIMEPERFRAME` comes from `<linux/videodev2.h>`, which
is not part of the sources. -/
def V4L2_CAP_TIMEPERFRAME : Nat := 0x1000

/-- Modelled from the spec: the fixed packed-YUV pixel format tag; the value
of `V4L2_PIX_FMT_YUYV` comes from `<linux/videodev2.h>`, which is not part of
the sources. -/
def V4L2_PIX_FMT_YUYV : Nat := 0x56595559

/-- Modelled from the spec: the conversion format registered with the
producer; the value of `VIDEO_FORMAT_YUY2` comes from the OBS headers, which
are not part of the sources. -/
def VIDEO_FORMAT_YUY2 : Nat := 4

/-- The outcome of a function of the plugin: its return value, the session
after the call and the calls it made, in order. -/
structure Outcome (α : Type) where
  ret : α
  vcam : virtualcam_data
  events : List Event

/-- The function `virtualcam_create`: `bzalloc` zeroes the record, then
`vcam->output = output`. -/
def virtualcam_create (output : Nat) : virtualcam_data :=
  { output := output, device := 0, frame_size := 0 }

/-- The function `virtualcam_destroy`: `close (vcam->device)`. -/
def virtualcam_destroy (vcam : virtualcam_data) : List Event :=
  [Event.close vcam.device]

/-- The record `parm` that `try_connect` passes to `VIDIOC_S_PARM`. -/
def stream_parm (h : Host) : v4l2_streamparm :=
  { type := V4L2_BUF_TYPE_VIDEO_OUTPUT,
    capability := V4L2_CAP_TIMEPERFRAME,
    numerator := h.fps_den,
    denominator := h.fps_num }

/-- The function `try_connect (data, device)`. -/
def try_connect (h : Host) (vcam : virtualcam_data) (device : List Nat) : Outcome Bool :=
  let width := h.width
  let height := h.height
  let vcam := { vcam with frame_size := (width * height * 2) % 2 ^ 32 }
  let node := h.node device
  let vcam := { vcam with device := node.open_ret }
  let ev := [Event.open_call device O_RDWR node.open_ret]
  if vcam.device < 0 then ⟨false, vcam, ev⟩
  else
    let ev := ev ++ [Event.querycap vcam.device node.querycap_ret]
    if node.querycap_ret < 0 then ⟨false, vcam, ev⟩
    else
      let ev := ev ++ [Event.g_fmt vcam.device V4L2_BUF_TYPE_VIDEO_OUTPUT node.g_fmt_ret]
      if node.g_fmt_ret < 0 then ⟨false, vcam, ev⟩
      else
        let parm := stream_parm h
        let ev := ev ++ [Event.s_parm vcam.device parm node.s_parm_ret]
        if node.s_parm_ret < 0 then ⟨false, vcam, ev⟩
        else
          let format : v4l2_format :=
            { type := V4L2_BUF_TYPE_VIDEO_OUTPUT,
              width := width,
              height := height,
              pixelformat := V4L2_PIX_FMT_YUYV,
              sizeimage := vcam.frame_size,
              driver := node.g_fmt_driver }
          let ev := ev ++ [Event.s_fmt vcam.device format node.s_fmt_ret]
          if node.s_fmt_ret < 0 then ⟨false, vcam, ev⟩
          else
            let vsi : video_scale_info :=
              { format := VIDEO_FORMAT_YUY2, width := width, height := height }
            ⟨true, vcam,
              ev ++ [Event.set_video_conversion vcam.output vsi,
                Event.begin_data_capture vcam.output]⟩

/-- The path built by `snprintf (device, 32, "/dev/%s", list[i]->d_name)`: at
most 31 bytes are stored before the terminator. -/
def device_path (d_name : List Nat) : List Nat := (bytes "/dev/" ++ d_name).take 31

/-- The loop `for (int i = 0; i < n; i++)` of `virtualcam_start` over the
scanned names: `success` is the returned value. -/
def connect_loop (h : Host) : virtualcam_data → List (List Nat) → Outcome Bool
  | vcam, [] => ⟨false, vcam, []⟩
  | vcam, d_name :: rest =>
    let r := try_connect h vcam (device_path d_name)
    if r.ret then r
    else
      let r2 := connect_loop h r.vcam rest
      ⟨r2.ret, r2.vcam, r.events ++ r2.events⟩

/-- The command line of `loopback_module_load`, before `run_command` adds the
`PATH` assignment and the `flatpak-spawn` wrapper. -/
def modprobe_command : String :=
  "pkexec modprobe v4l2loopback exclusive_caps=1 card_label='OBS Virtual Camera' && sleep 0.5"

/-- The function `virtualcam_start (data)`. -/
def virtualcam_start (h : Host) (vcam : virtualcam_data) : Outcome Bool :=
  let loaded := loopback_module_loaded h.proc_modules
  let ev := if loaded then [] else [Event.run_command modprobe_command h.modprobe_ret]
  if !loaded && h.modprobe_ret != 0 then ⟨false, vcam, ev⟩
  else
    match h.scandir with
    | none => ⟨false, vcam, ev⟩
    | some list =>
      let r := connect_loop h vcam list
      ⟨r.ret, r.vcam, ev ++ r.events⟩

/-- The function `virtualcam_stop (data, ts)`. -/
def virtualcam_stop (vcam : virtualcam_data) : Outcome Unit :=
  ⟨(), vcam, [Event.end_data_capture vcam.output, Event.close vcam.device]⟩

/-- The descriptors returned by successful `open` calls, in order. -/
def opened : List Event → List Int
  | [] => []
  | Event.open_call _ _ ret :: es => if 0 ≤ ret then ret :: opened es else opened es
  | _ :: es => opened es

/-- The descriptors passed to `close`, in order. -/
def closed : List Event → List Int
  | [] => []
  | Event.close fd :: es => fd :: closed es
  | _ :: es => closed es

/-- The paths passed to `open`, in order: the candidates attempted. -/
def attempted : List Event → List (List Nat)
  | [] => []
  | Event.open_call path _ _ :: es => path :: attempted es
  | _ :: es => attempted es

/-- The records passed to `VIDIOC_S_PARM`, in order. -/
def submitted_parms : List Event → List v4l2_streamparm
  | [] => []
  | Event.s_parm _ parm _ :: es => parm :: submitted_parms es
  | _ :: es => submitted_parms es

/-- The descriptors that are open after a sequence of calls, given those open
before it: a successful `open` adds its descriptor, `close` removes it. -/
def open_handles : List Int → List Event → List Int
  | held, [] => held
  | held, Event.open_call _ _ ret :: es =>
    if 0 ≤ ret then open_handles (held ++ [ret]) es else open_handles held es
  | held, Event.close fd :: es => open_handles (held.erase fd) es
  | held, _ :: es => open_handles held es

/-- One `write (vcam->device, frame->data[0], vcam->frame_size)` call: the
descriptor, the offset into the frame of the first byte passed, the number of
bytes requested and the value returned. -/
structure write_call where
  fd : Int
  offset : Nat
  count : Nat
  ret : Int
  deriving DecidableEq, Repr

/-- The run of `virtual_video`: the `write` calls made, in order, and whether
the function has returned (`false`: the loop is still running when the fuel
is used up). -/
structure video_run where
  calls : List write_call
  returned : Bool
  deriving DecidableEq, Repr

/-- The loop `while (frame_size > 0)` of `virtual_video`.  The device is the
function `write`, giving the value returned by the `i`-th call (from 0) when
`count` bytes are requested; `frame_size -= written` wraps modulo `2 ^ 32`. -/
def video_loop (write : Nat → Nat → Int) (vcam : virtualcam_data) :
    Nat → Nat → List write_call → video_run
  | 0, frame_size, calls => ⟨calls, decide (frame_size = 0)⟩
  | fuel + 1, frame_size, calls =>
    if frame_size > 0 then
      let written := write calls.length vcam.frame_size
      let calls := calls ++ [⟨vcam.device, 0, vcam.frame_size, written⟩]
      if written = -1 then ⟨calls, true⟩
      else video_loop write vcam fuel (((frame_size : Int) - written) % 2 ^ 32).toNat calls
    else ⟨calls, true⟩

/-- The function `virtual_video (param, frame)`, run for at most `fuel` passes
of its loop. -/
def virtual_video (write : Nat → Nat → Int) (vcam : virtualcam_data) (fuel : Nat) :
    video_run :=
  video_loop write vcam fuel vcam.frame_size []

/-- The bytes accepted by the device over a run: the sum of the non-negative
values returned by `write`. -/
def accepted (calls : List write_call) : Int :=
  (calls.map (fun c => if 0 ≤ c.ret then c.ret else 0)).sum

/-- Whether the configuration attempt on a scanned name succeeds.  The value
returned by `try_connect` does not depend on the session it is given
(`try_connect_ret`). -/
def connects (h : Host) (d_name : List Nat) : Bool :=
  (try_connect h (virtualcam_create 0) (device_path d_name)).ret

/-- A device node on which every call succeeds; `open` returns `fd`. -/
def good_node (fd : Int) : device_node :=
  { open_ret := fd, querycap_ret := 0, g_fmt_ret := 0, g_fmt_driver := 0, s_parm_ret := 0,
    s_fmt_ret := 0 }

/-- A host with two candidates: `/dev/video0` opens as descriptor 3 and fails
the capability query, `/dev/video1` opens as descriptor 4 and accepts every
request. -/
def leak_host : Host :=
  { width := 1920, height := 1080, fps_num := 30000, fps_den := 1001,
    proc_modules := some (bytes "v4l2loopback 40960 0 - Live 0x0\n"),
    modprobe_ret := 0,
    scandir := some [bytes "video0", bytes "video1"],
    node := fun path =>
      if path = bytes "/dev/video0" then { good_node 3 with querycap_ret := -1 }
      else good_node 4 }

/-- A host with one candidate, `/dev/video0`, that cannot be opened. -/
def closed_host : Host :=
  { width := 2, height := 2, fps_num := 30, fps_den := 1,
    proc_modules := some (bytes "v4l2loopback 40960 0 - Live 0x0\n"),
    modprobe_ret := 0,
    scandir := some [bytes "video0"],
    node := fun _ => { good_node 3 with open_ret := -1 } }

/-- A device that accepts one byte on the first `write` call and every byte
requested on the later ones. -/
def greedy_write (i count : Nat) : Int := if i = 0 then 1 else (count : Int)

/-- A device that accepts `n` bytes on the first `write` call and reports an
error on the later ones. -/
def failing_write (n : Int) (i _count : Nat) : Int := if i = 0 then n else -1

/-- A session negotiated on descriptor 4 with a frame of two bytes. -/
def two_byte_session : virtualcam_data := { output := 0, device := 4, frame_size := 2 }

/-! ## Theorems -/

theorem isdigit_iff (c : Nat) : isdigit c = true ↔ 48 ≤ c ∧ c ≤ 57 := by
  simp [isdigit]

theorem symbol_cases (c : Nat) :
    (symbol c = 0 ∧ isdigit c = false) ∨ (symbol c = 1 ∧ isdigit c = true ∧ c ≠ 48) ∨
      (symbol c = 2 ∧ c = 48) := by
  unfold symbol
  by_cases h : c = 48
  · subst h; right; right; simp [isdigit]
  · cases hd : isdigit c <;> simp [h]

theorem isdigit_zero : isdigit 0 = false := rfl

theorem symbol_zero : symbol 0 = 0 := rfl

theorem symbol_48 : symbol 48 = 2 := rfl

theorem digits_value_cons (c : Nat) (cs : List Nat) :
    digits_value (c :: cs) = (c - 48) * 10 ^ cs.length + digits_value cs := rfl

theorem opposite_neg (d : Int) : Opposite d (-d) := by
  constructor <;> constructor <;> intro h <;> omega

theorem opposite_sub (a b : Nat) : Opposite ((a : Int) - b) ((b : Int) - a) := by
  constructor <;> constructor <;> intro h <;> omega

theorem len_loop_opposite (d e : Int) (hde : Opposite d e) :
    ∀ p1 p2 : List Nat, Opposite (len_loop d p1 p2) (len_loop e p2 p1) := by
  intro p1
  induction p1 with
  | nil =>
    intro p2
    cases p2 with
    | nil => simpa [len_loop, isdigit_zero] using hde
    | cons b p2 =>
      cases hb : isdigit b
      · simpa [len_loop, isdigit_zero, hb] using hde
      · simp [len_loop, isdigit_zero, hb, Opposite]
  | cons a p1 ih =>
    intro p2
    cases p2 with
    | nil =>
      cases ha : isdigit a
      · simpa [len_loop, isdigit_zero, ha] using hde
      · simp [len_loop, isdigit_zero, ha, Opposite]
    | cons b p2 =>
      cases ha : isdigit a <;> cases hb : isdigit b <;>
        simp [len_loop, ha, hb, hde, ih] <;> simp [Opposite]

theorem after_loop_opposite (S : Nat) (hS : S = 0 ∨ S = 3 ∨ S = 6 ∨ S = 9) (c1 c2 : Nat)
    (hne : c1 ≠ c2) (p1 p2 : List Nat) :
    Opposite (after_loop (S + symbol c1) c1 c2 p1 p2)
      (after_loop (S + symbol c2) c2 c1 p2 p1) := by
  have hsub := opposite_sub c1 c2
  have hlen := len_loop_opposite _ _ hsub p1 p2
  rcases hS with rfl | rfl | rfl | rfl <;>
    rcases symbol_cases c1 with ⟨h1, _⟩ | ⟨h1, _, _⟩ | ⟨h1, h1z⟩ <;>
    rcases symbol_cases c2 with ⟨h2, _⟩ | ⟨h2, _, _⟩ | ⟨h2, h2z⟩ <;>
    first
      | (exfalso; omega)
      | (simp only [after_loop, h1, h2]
         simp [result_type, CMP, LEN, hsub, hlen]
         try simp [Opposite])

theorem next_state_mem (S : Nat) (hS : S = 0 ∨ S = 3 ∨ S = 6 ∨ S = 9) (c : Nat) :
    next_state.getD (S + symbol c) 0 = 0 ∨ next_state.getD (S + symbol c) 0 = 3 ∨
      next_state.getD (S + symbol c) 0 = 6 ∨ next_state.getD (S + symbol c) 0 = 9 := by
  rcases hS with rfl | rfl | rfl | rfl <;>
    rcases symbol_cases c with ⟨h, _⟩ | ⟨h, _, _⟩ | ⟨h, _⟩ <;>
    simp [h, next_state, S_N, S_I, S_F, S_Z]

theorem while_loop_opposite :
    ∀ (s1 s2 : List Nat) (S : Nat), (S = 0 ∨ S = 3 ∨ S = 6 ∨ S = 9) →
      Opposite (while_loop s1 s2 (S + symbol (s1.headD 0)))
        (while_loop s2 s1 (S + symbol (s2.headD 0))) := by
  intro s1
  induction s1 with
  | nil =>
    intro s2 S hS
    cases s2 with
    | nil => simp [while_loop, Opposite]
    | cons c2 p2 =>
      by_cases h0 : c2 = 0
      · subst h0; simp [while_loop, Opposite]
      · have h := after_loop_opposite S hS 0 c2 (Ne.symm h0) [] p2
        simpa [while_loop, h0] using h
  | cons c1 p1 ih =>
    intro s2 S hS
    cases s2 with
    | nil =>
      by_cases h0 : c1 = 0
      · subst h0; simp [while_loop, Opposite]
      · have h := after_loop_opposite S hS c1 0 h0 p1 []
        simpa [while_loop, h0] using h
    | cons c2 p2 =>
      by_cases hc : c1 = c2
      · subst hc
        by_cases h0 : c1 = 0
        · simp [while_loop, h0, Opposite]
        · have h := ih p2 _ (next_state_mem S hS c1)
          simpa [while_loop, h0] using h
      · have h := after_loop_opposite S hS c1 c2 hc p1 p2
        have e1 : ¬ ((c1 : Int) - (c2 : Int) = 0) := by omega
        have e2 : ¬ ((c2 : Int) - (c1 : Int) = 0) := by omega
        simpa [while_loop, e1, e2] using h

theorem strverscmp_opposite (s1 s2 : List Nat) :
    Opposite (__strverscmp s1 s2) (__strverscmp s2 s1) := by
  have h := while_loop_opposite s1 s2 0 (Or.inl rfl)
  simpa [__strverscmp, S_N] using h

/-- C10: `__strverscmp` is antisymmetric in sign: the result on `(s1, s2)` is
negative exactly when the result on `(s2, s1)` is positive, and zero exactly
when the result on `(s2, s1)` is zero. -/
theorem strverscmp_antisymmetric (s1 s2 : List Nat) :
    (__strverscmp s1 s2 < 0 ↔ __strverscmp s2 s1 > 0) ∧
      (__strverscmp s1 s2 = 0 ↔ __strverscmp s2 s1 = 0) :=
  strverscmp_opposite s1 s2

theorem strverscmp_self (s : List Nat) : __strverscmp s s = 0 := by
  have h := strverscmp_opposite s s
  rcases lt_trichotomy (__strverscmp s s) 0 with hlt | heq | hgt
  · have := h.1.mp hlt; omega
  · exact heq
  · have := h.1.mpr hgt; omega

theorem strverscmp_examples :
    __strverscmp (bytes "video2") (bytes "video9") = -7 ∧
      __strverscmp (bytes "video9") (bytes "video10") = -1 ∧
      __strverscmp (bytes "video10") (bytes "video9") = 1 ∧
      __strverscmp (bytes "video10") (bytes "video10") = 0 := by
  decide

/-! ### Numeric suffixes -/

theorem len_loop_digits (d : Int) :
    ∀ xs ys : List Nat, (∀ c ∈ xs, isdigit c = true) → (∀ c ∈ ys, isdigit c = true) →
      (xs.length < ys.length → len_loop d xs ys = -1) ∧
        (xs.length = ys.length → len_loop d xs ys = d) := by
  intro xs
  induction xs with
  | nil =>
    intro ys _ hy
    cases ys with
    | nil => simp [len_loop, isdigit_zero]
    | cons y ys => simp [len_loop, hy y (by simp)]
  | cons x xs ih =>
    intro ys hx hy
    have hx0 : isdigit x = true := hx x (by simp)
    cases ys with
    | nil => simp
    | cons y ys =>
      have hy0 : isdigit y = true := hy y (by simp)
      have h := ih ys (fun c hc => hx c (by simp [hc])) (fun c hc => hy c (by simp [hc]))
      simpa [len_loop, hx0, hy0] using h

theorem len_loop_run_lt (x y : Nat) (xs ys : List Nat)
    (hx : ∀ c ∈ xs, isdigit c = true) (hy : ∀ c ∈ ys, isdigit c = true)
    (hne : x ≠ y) (h : run_lt (x :: xs) (y :: ys)) :
    len_loop ((x : Int) - (y : Int)) xs ys < 0 := by
  have hl := len_loop_digits ((x : Int) - (y : Int)) xs ys hx hy
  rcases h with h | ⟨h1, h2⟩
  · rw [hl.1 (by simpa using h)]; decide
  · rw [hl.2 (by simpa using h1)]
    rcases h2 with h2 | ⟨h2, _⟩
    · omega
    · exact absurd h2 hne

theorem symbol_of_digit (c : Nat) (h : isdigit c = true) : symbol c = 1 ∨ symbol c = 2 := by
  rcases symbol_cases c with ⟨_, h0⟩ | ⟨h1, _, _⟩ | ⟨h2, _⟩
  · rw [h] at h0; cases h0
  · exact Or.inl h1
  · exact Or.inr h2

theorem while_loop_integral :
    ∀ xs ys : List Nat, (∀ c ∈ xs, isdigit c = true) → (∀ c ∈ ys, isdigit c = true) →
      run_lt xs ys → while_loop xs ys (S_I + symbol (xs.headD 0)) < 0 := by
  intro xs
  induction xs with
  | nil =>
    intro ys _ hy h
    cases ys with
    | nil => rcases h with h | ⟨_, h⟩ <;> simp [digits_lt] at h
    | cons y ys =>
      have hy0 : isdigit y = true := hy y (by simp)
      have hy1 : y ≠ 0 := by rintro rfl; simp [isdigit_zero] at hy0
      rcases symbol_of_digit y hy0 with hs | hs <;>
        simp [while_loop, hy1, after_loop, hs, symbol_zero, S_I, result_type, CMP, LEN]
  | cons x xs ih =>
    intro ys hx hy h
    have hx0 : isdigit x = true := hx x (by simp)
    have hx1 : x ≠ 0 := by rintro rfl; simp [isdigit_zero] at hx0
    have hxs : ∀ c ∈ xs, isdigit c = true := fun c hc => hx c (by simp [hc])
    cases ys with
    | nil => rcases h with h | ⟨h, _⟩ <;> simp at h
    | cons y ys =>
      have hy0 : isdigit y = true := hy y (by simp)
      have hys : ∀ c ∈ ys, isdigit c = true := fun c hc => hy c (by simp [hc])
      by_cases hxy : x = y
      · subst hxy
        have h2 : run_lt xs ys := by
          rcases h with h | ⟨h1, h2⟩
          · exact Or.inl (by simpa using h)
          · refine Or.inr ⟨by simpa using h1, ?_⟩
            rcases h2 with h2 | ⟨_, h2⟩
            · omega
            · exact h2
        have hrec := ih ys hxs hys h2
        rcases symbol_of_digit x hx0 with hs | hs <;>
          simpa [while_loop, hx1, hs, S_I, next_state] using hrec
      · have hlen := len_loop_run_lt x y xs ys hxs hys hxy h
        have e1 : ¬ ((x : Int) - (y : Int) = 0) := by omega
        rcases symbol_of_digit x hx0 with hs | hs <;>
          rcases symbol_of_digit y hy0 with ht | ht <;>
          simpa [while_loop, e1, after_loop, hs, ht, S_I, result_type, CMP, LEN] using hlen

theorem digits_value_append (xs : List Nat) (c : Nat) :
    digits_value (xs ++ [c]) = 10 * digits_value xs + (c - 48) := by
  induction xs with
  | nil => simp [digits_value]
  | cons x xs ih =>
    rw [List.cons_append, digits_value_cons, digits_value_cons, ih, List.length_append,
      List.length_singleton, pow_succ]
    ring

theorem digits_value_reverse (ds : List Nat) :
    digits_value (ds.reverse.map (fun d => 48 + d)) = Nat.ofDigits 10 ds := by
  induction ds with
  | nil => simp [digits_value]
  | cons d ds ih =>
    simp only [List.reverse_cons, List.map_append, List.map_cons, List.map_nil,
      digits_value_append, ih, Nat.ofDigits_cons]
    simp
    ring

theorem decimal_examples :
    decimal 0 = bytes "0" ∧ decimal 2 = bytes "2" ∧ decimal 9 = bytes "9" ∧
      decimal 10 = bytes "10" ∧ decimal 1234 = bytes "1234" := by
  have hb : bytes "0" = [48] ∧ bytes "2" = [50] ∧ bytes "9" = [57] ∧ bytes "10" = [49, 48] ∧
      bytes "1234" = [49, 50, 51, 52] := by decide
  rw [hb.1, hb.2.1, hb.2.2.1, hb.2.2.2.1, hb.2.2.2.2]
  simp [decimal]

theorem decimal_value (n : Nat) : digits_value (decimal n) = n := by
  unfold decimal
  split
  · next h => subst h; simp [digits_value]
  · rw [digits_value_reverse, Nat.ofDigits_digits]

theorem decimal_isdigit (n : Nat) : ∀ c ∈ decimal n, isdigit c = true := by
  intro c hc
  unfold decimal at hc
  split at hc
  · simp at hc; subst hc; rfl
  · simp only [List.mem_map, List.mem_reverse] at hc
    obtain ⟨d, hd, rfl⟩ := hc
    have := Nat.digits_lt_base (by norm_num : 1 < 10) hd
    rw [isdigit_iff]
    omega

theorem decimal_length (n : Nat) (h : n ≠ 0) : (decimal n).length = (Nat.digits 10 n).length := by
  simp [decimal, h]

theorem decimal_cons (n : Nat) (h : n ≠ 0) :
    ∃ x xs, decimal n = x :: xs ∧ isdigit x = true ∧ x ≠ 48 := by
  have hne : Nat.digits 10 n ≠ [] := Nat.digits_ne_nil_iff_ne_zero.mpr h
  have hlast := Nat.getLast_digit_ne_zero 10 h
  have hsplit := List.dropLast_append_getLast hne
  refine ⟨48 + (Nat.digits 10 n).getLast hne,
    (Nat.digits 10 n).dropLast.reverse.map (fun d => 48 + d), ?_, ?_, ?_⟩
  · unfold decimal
    rw [if_neg h]
    conv_lhs => rw [← hsplit]
    simp
  · have := Nat.digits_lt_base (by norm_num : 1 < 10) (List.getLast_mem hne)
    rw [isdigit_iff]
    omega
  · omega

theorem decimal_length_mono (a b : Nat) (h : a ≤ b) :
    (decimal a).length ≤ (decimal b).length := by
  by_cases ha : a = 0
  · subst ha
    by_cases hb : b = 0
    · subst hb; exact le_refl _
    · obtain ⟨x, xs, hx, _, _⟩ := decimal_cons b hb
      rw [hx]; simp [decimal]
  · have hb : b ≠ 0 := by omega
    rw [decimal_length a ha, decimal_length b hb]
    exact Nat.le_digits_len_le 10 a b h

theorem digits_value_lt_pow :
    ∀ xs : List Nat, (∀ c ∈ xs, isdigit c = true) → digits_value xs < 10 ^ xs.length := by
  intro xs
  induction xs with
  | nil => intro _; simp [digits_value]
  | cons x xs ih =>
    intro hx
    have h1 := (isdigit_iff x).mp (hx x (by simp))
    have h2 := ih (fun c hc => hx c (by simp [hc]))
    have h3 : (x - 48) * 10 ^ xs.length ≤ 9 * 10 ^ xs.length :=
      Nat.mul_le_mul_right _ (by omega)
    simp only [digits_value, List.length_cons, pow_succ]
    omega

theorem digits_lt_of_value_lt :
    ∀ xs ys : List Nat, xs.length = ys.length → (∀ c ∈ xs, isdigit c = true) →
      (∀ c ∈ ys, isdigit c = true) → digits_value xs < digits_value ys → digits_lt xs ys := by
  intro xs
  induction xs with
  | nil =>
    intro ys hl _ _ hv
    cases ys with
    | nil => simp [digits_value] at hv
    | cons y ys => simp at hl
  | cons x xs ih =>
    intro ys hl hx hy hv
    cases ys with
    | nil => simp at hl
    | cons y ys =>
      have hl2 : xs.length = ys.length := by simpa using hl
      have hxs : ∀ c ∈ xs, isdigit c = true := fun c hc => hx c (by simp [hc])
      have hys : ∀ c ∈ ys, isdigit c = true := fun c hc => hy c (by simp [hc])
      have hx0 := (isdigit_iff x).mp (hx x (by simp))
      have hy0 := (isdigit_iff y).mp (hy y (by simp))
      have bx := digits_value_lt_pow xs hxs
      have b_y := digits_value_lt_pow ys hys
      simp only [digits_value, hl2] at hv
      rw [hl2] at bx
      by_cases hxy : x = y
      · subst hxy
        exact Or.inr ⟨rfl, ih ys hl2 hxs hys (by omega)⟩
      · left
        by_contra hge
        have hyx : y - 48 + 1 ≤ x - 48 := by omega
        have := Nat.mul_le_mul_right (10 ^ ys.length) hyx
        rw [Nat.add_mul] at this
        omega

theorem decimal_run_lt (a b : Nat) (h : a < b) : run_lt (decimal a) (decimal b) := by
  rcases Nat.lt_or_ge (decimal a).length (decimal b).length with hl | hl
  · exact Or.inl hl
  · have heq : (decimal a).length = (decimal b).length :=
      le_antisymm (decimal_length_mono a b (le_of_lt h)) hl
    refine Or.inr ⟨heq, ?_⟩
    apply digits_lt_of_value_lt _ _ heq (decimal_isdigit a) (decimal_isdigit b)
    rw [decimal_value, decimal_value]
    exact h

theorem strverscmp_video (xs ys : List Nat) :
    __strverscmp (bytes "video" ++ xs) (bytes "video" ++ ys) =
      while_loop xs ys (S_N + symbol (xs.headD 0)) := by
  have hb : bytes "video" = [118, 105, 100, 101, 111] := by decide
  rw [hb]
  simp [__strverscmp, while_loop, symbol, isdigit, next_state, S_N]

/-- C1: for natural numbers `a < b` written in decimal without leading zeros,
`__strverscmp ("video" ++ a, "video" ++ b)` is negative, and so is
`versionsort` on the two names: device names are ordered by the value of the
numeric suffix. -/
theorem strverscmp_video_lt (a b : Nat) (h : a < b) :
    __strverscmp (bytes "video" ++ decimal a) (bytes "video" ++ decimal b) < 0 ∧
      versionsort (bytes "video" ++ decimal a) (bytes "video" ++ decimal b) < 0 := by
  suffices hs : __strverscmp (bytes "video" ++ decimal a) (bytes "video" ++ decimal b) < 0 from
    ⟨hs, hs⟩
  rw [strverscmp_video]
  have hb : b ≠ 0 := by omega
  obtain ⟨y, ys, hy, hyd, hy48⟩ := decimal_cons b hb
  have hrun := decimal_run_lt a b h
  have hbd := decimal_isdigit b
  rw [hy] at hrun hbd ⊢
  have hys : ∀ c ∈ ys, isdigit c = true := fun c hc => hbd c (by simp [hc])
  have hsy : symbol y = 1 := by
    rcases symbol_cases y with ⟨_, h0⟩ | ⟨h1, _, _⟩ | ⟨_, h2⟩
    · rw [hyd] at h0; cases h0
    · exact h1
    · exact absurd h2 hy48
  have hy1 := (isdigit_iff y).mp hyd
  by_cases ha : a = 0
  · subst ha
    have e1 : ¬ ((48 : Int) - (y : Int) = 0) := by omega
    have e2 : (48 : Int) - (y : Int) < 0 := by omega
    have hd0 : decimal 0 = [48] := rfl
    rw [hd0]
    simpa [while_loop, e1, after_loop, hsy, symbol_48, S_N, result_type, CMP, LEN] using e2
  · obtain ⟨x, xs, hx, hxd, hx48⟩ := decimal_cons a ha
    have had := decimal_isdigit a
    rw [hx] at hrun had ⊢
    have hxs : ∀ c ∈ xs, isdigit c = true := fun c hc => had c (by simp [hc])
    have hsx : symbol x = 1 := by
      rcases symbol_cases x with ⟨_, h0⟩ | ⟨h1, _, _⟩ | ⟨_, h2⟩
      · rw [hxd] at h0; cases h0
      · exact h1
      · exact absurd h2 hx48
    have hx1 := (isdigit_iff x).mp hxd
    have hx0 : x ≠ 0 := by omega
    by_cases hxy : x = y
    · subst hxy
      have h2 : run_lt xs ys := by
        rcases hrun with h1 | ⟨h1, h2⟩
        · exact Or.inl (by simpa using h1)
        · refine Or.inr ⟨by simpa using h1, ?_⟩
          rcases h2 with h2 | ⟨_, h2⟩
          · omega
          · exact h2
      have hrec := while_loop_integral xs ys hxs hys h2
      simpa [while_loop, hx0, hsx, S_N, S_I, next_state] using hrec
    · have hlen := len_loop_run_lt x y xs ys hxs hys hxy hrun
      have e1 : ¬ ((x : Int) - (y : Int) = 0) := by omega
      simpa [while_loop, e1, after_loop, hsx, hsy, S_N, result_type, CMP, LEN] using hlen

theorem strverscmp_video_lt_witness :
    (9 < 10) ∧ __strverscmp (bytes "video" ++ decimal 9) (bytes "video" ++ decimal 10) < 0 ∧
      versionsort (bytes "video" ++ decimal 9) (bytes "video" ++ decimal 10) < 0 :=
  ⟨by decide, strverscmp_video_lt 9 10 (by decide)⟩

/-! ### The module registry -/

theorem strstr_iff (h n : List Nat) : strstr h n = true ↔ n <:+: h := by
  induction h with
  | nil => simp [strstr]
  | cons c h ih =>
    rw [strstr, Bool.or_eq_true, ih, List.infix_cons_iff, List.isPrefixOf_iff_prefix]

theorem fgets_read_spec (n : Nat) :
    ∀ s : List Nat, (fgets_read n s).1 ++ (fgets_read n s).2 = s ∧
      ((∃ l, (fgets_read n s).1 = l ++ [10] ∧ 10 ∉ l ∧ l.length < n) ∨
        (10 ∉ (fgets_read n s).1 ∧
          ((fgets_read n s).2 = [] ∨ (fgets_read n s).1.length = n))) := by
  induction n with
  | zero => intro s; simp [fgets_read]
  | succ n ih =>
    intro s
    cases s with
    | nil => simp [fgets_read]
    | cons c s =>
      by_cases hc : c = 10
      · subst hc
        refine ⟨by simp [fgets_read], Or.inl ⟨[], by simp [fgets_read]⟩⟩
      · obtain ⟨h1, h2⟩ := ih s
        refine ⟨by simp [fgets_read, hc, h1], ?_⟩
        rcases h2 with ⟨l, hl1, hl2, hl3⟩ | ⟨h3, h4⟩
        · left
          refine ⟨c :: l, by simp [fgets_read, hc, hl1], ?_, by simpa using hl3⟩
          simp only [List.mem_cons, not_or]
          exact ⟨fun h => hc h.symm, hl2⟩
        · right
          refine ⟨?_, ?_⟩
          · simp only [fgets_read, hc, if_false, List.mem_cons, not_or]
            exact ⟨fun h => hc h.symm, h3⟩
          · simpa [fgets_read, hc] using h4

theorem lines_append_newline (l rest : List Nat) (h : 10 ∉ l) :
    lines (l ++ 10 :: rest) = l :: lines rest := by
  induction l with
  | nil => simp [lines]
  | cons c l ih =>
    have hc : c ≠ 10 := fun e => h (by simp [e])
    have hl : 10 ∉ l := fun e => h (by simp [e])
    simp [lines, hc, ih hl]

theorem lines_append (l rest : List Nat) (h : 10 ∉ l) :
    ∃ hd tl, lines rest = hd :: tl ∧ lines (l ++ rest) = (l ++ hd) :: tl := by
  induction l with
  | nil =>
    cases rest with
    | nil => exact ⟨[], [], by simp [lines]⟩
    | cons c s =>
      by_cases hc : c = 10
      · exact ⟨[], lines s, by simp [lines, hc]⟩
      · cases hs : lines s with
        | nil => exact ⟨[c], [], by simp [lines, hc, hs]⟩
        | cons a as => exact ⟨c :: a, as, by simp [lines, hc, hs]⟩
  | cons c l ih =>
    have hc : c ≠ 10 := fun e => h (by simp [e])
    have hl : 10 ∉ l := fun e => h (by simp [e])
    obtain ⟨hd, tl, h1, h2⟩ := ih hl
    exact ⟨hd, tl, h1, by simp [lines, hc, h2]⟩

theorem module_name_eq :
    module_name = [118, 52, 108, 50, 108, 111, 111, 112, 98, 97, 99, 107] := by decide

theorem infix_concat_newline (l : List Nat) :
    module_name <:+: l ++ [10] ↔ module_name <:+: l := by
  constructor
  · rintro ⟨s, t, h⟩
    rcases List.eq_nil_or_concat t with rfl | ⟨t, b, rfl⟩
    · exfalso
      have h2 := congrArg List.getLast? h
      rw [module_name_eq] at h2
      simp at h2
    · rw [List.concat_eq_append, ← List.append_assoc] at h
      have h2 := List.append_inj_left' h (by simp)
      exact ⟨s, t, h2⟩
  · intro h
    exact h.trans (List.infix_append' [] l [10])

theorem module_name_ne_nil : module_name ≠ [] := by
  rw [module_name_eq]; simp

theorem not_infix_nil : ¬ module_name <:+: ([] : List Nat) := by
  rw [List.infix_nil]; exact module_name_ne_nil

theorem c_string_eq (buf : List Nat) (h : ∀ c ∈ buf, c ≠ 0) : c_string buf = buf := by
  unfold c_string
  rw [List.takeWhile_eq_self_iff]
  intro c hc
  simpa using h c hc

theorem loaded_loop_lines :
    ∀ (fuel : Nat) (fp : List Nat), fp.length < fuel → (∀ l ∈ lines fp, l.length ≤ 511) →
      (∀ c ∈ fp, c ≠ 0) →
      (loaded_loop fuel fp = true ↔ ∃ l ∈ lines fp, module_name <:+: l) := by
  intro fuel
  induction fuel with
  | zero => intro fp h; simp at h
  | succ fuel ih =>
    intro fp hlen hline hnul
    cases fp with
    | nil => simp [loaded_loop, fgets, lines, module_name_ne_nil]
    | cons c s =>
      obtain ⟨happ, hform⟩ := fgets_read_spec 511 (c :: s)
      generalize hchunk : (fgets_read 511 (c :: s)).1 = chunk at happ hform
      generalize hrest : (fgets_read 511 (c :: s)).2 = rest at happ hform
      have hpair : fgets_read 511 (c :: s) = (chunk, rest) := by
        rw [← hchunk, ← hrest]
      have hstep : loaded_loop (fuel + 1) (c :: s) =
          (if strstr (c_string chunk) module_name then true else loaded_loop fuel rest) := by
        simp [loaded_loop, fgets, hpair]
      have hchunk_nul : ∀ x ∈ chunk, x ≠ 0 := fun x hx =>
        hnul x (by rw [← happ]; simp [hx])
      have hrest_nul : ∀ x ∈ rest, x ≠ 0 := fun x hx =>
        hnul x (by rw [← happ]; simp [hx])
      have hchunk_ne : chunk ≠ [] := by
        rcases hform with ⟨l, hl, _, _⟩ | ⟨_, h2 | h2⟩
        · rw [hl]; simp
        · rw [h2] at happ; simp at happ; rw [happ]; simp
        · intro e; rw [e] at h2; simp at h2
      have hrest_len : rest.length < fuel := by
        have h1 : chunk.length + rest.length = (c :: s).length := by
          rw [← happ, List.length_append]
        have h2 : 0 < chunk.length := List.length_pos.mpr hchunk_ne
        omega
      rw [hstep, c_string_eq chunk hchunk_nul]
      rcases hform with ⟨l, hl, hl10, _⟩ | ⟨h10, hend⟩
      · have hlines : lines (c :: s) = l :: lines rest := by
          rw [← happ, hl, List.append_assoc]
          exact lines_append_newline l rest hl10
        rw [hlines] at hline ⊢
        have hrec := ih rest hrest_len (fun x hx => hline x (by simp [hx])) hrest_nul
        by_cases hs : strstr chunk module_name = true
        · have : module_name <:+: l := by
            rw [strstr_iff, hl, infix_concat_newline] at hs; exact hs
          simp [hs, this]
        · have : ¬ module_name <:+: l := by
            rw [strstr_iff, hl, infix_concat_newline] at hs; exact hs
          simp [hs, this, hrec]
      · obtain ⟨hd, tl, hl1, hl2⟩ := lines_append chunk rest h10
        rw [happ] at hl2
        have hhd : hd = [] := by
          rcases hend with h | h
          · rw [h] at hl1; simp [lines] at hl1; exact hl1.1
          · have := hline (chunk ++ hd) (by rw [hl2]; simp)
            rw [List.length_append, h] at this
            exact List.length_eq_zero.mp (by omega)
        subst hhd
        rw [List.append_nil] at hl2
        rw [hl2] at hline ⊢
        have hrec := ih rest hrest_len
          (by rw [hl1]; intro x hx; rcases List.mem_cons.mp hx with rfl | hx
              · simp
              · exact hline x (by simp [hx])) hrest_nul
        rw [hl1] at hrec
        by_cases hs : strstr chunk module_name = true
        · have : module_name <:+: chunk := (strstr_iff _ _).mp hs
          simp [hs, this]
        · have : ¬ module_name <:+: chunk := fun e => hs ((strstr_iff _ _).mpr e)
          simp [hs, this, hrec, module_name_ne_nil]

theorem fgets_rest_length (c : Nat) (s : List Nat) :
    (fgets_read 511 (c :: s)).2.length < (c :: s).length := by
  obtain ⟨happ, hform⟩ := fgets_read_spec 511 (c :: s)
  have h1 : (fgets_read 511 (c :: s)).1.length + (fgets_read 511 (c :: s)).2.length =
      (c :: s).length := by
    rw [← List.length_append, happ]
  have h2 : 0 < (fgets_read 511 (c :: s)).1.length := by
    rcases hform with ⟨l, hl, _, _⟩ | ⟨_, h2 | h2⟩
    · rw [hl]; simp
    · rw [h2, List.append_nil] at happ; rw [happ]; simp
    · omega
  omega

theorem loaded_loop_fuel :
    ∀ (f1 f2 : Nat) (fp : List Nat), fp.length < f1 → fp.length < f2 →
      loaded_loop f1 fp = loaded_loop f2 fp := by
  intro f1
  induction f1 with
  | zero => intro f2 fp h; simp at h
  | succ f1 ih =>
    intro f2 fp h1 h2
    cases f2 with
    | zero => simp at h2
    | succ f2 =>
      cases fp with
      | nil => simp [loaded_loop, fgets]
      | cons c s =>
        have hr := fgets_rest_length c s
        have hrec := ih f2 (fgets_read 511 (c :: s)).2 (by omega) (by omega)
        simp [loaded_loop, fgets, hrec]

/-- C8 (as amended): for every content of the module registry file whose
lines are at most 511 bytes long and that holds no NUL byte,
`loopback_module_loaded` returns true if and only if `"v4l2loopback"` occurs
as a substring of some line. -/
theorem loopback_module_loaded_iff (content : List Nat)
    (hline : ∀ l ∈ lines content, l.length ≤ 511) (hnul : ∀ c ∈ content, c ≠ 0) :
    loopback_module_loaded (some content) = true ↔
      ∃ l ∈ lines content, module_name <:+: l :=
  loaded_loop_lines (content.length + 1) content (Nat.lt_succ_self _) hline hnul

theorem loopback_module_loaded_iff_witness :
    (∀ l ∈ lines (bytes "snd 16384 1\nv4l2loopback 40960 0 - Live 0x0\n"), l.length ≤ 511) ∧
      (∀ c ∈ bytes "snd 16384 1\nv4l2loopback 40960 0 - Live 0x0\n", c ≠ 0) ∧
      (loopback_module_loaded (some (bytes "snd 16384 1\nv4l2loopback 40960 0 - Live 0x0\n")) = true ↔
        ∃ l ∈ lines (bytes "snd 16384 1\nv4l2loopback 40960 0 - Live 0x0\n"),
          module_name <:+: l) :=
  ⟨by decide, by decide,
    loopback_module_loaded_iff (bytes "snd 16384 1\nv4l2loopback 40960 0 - Live 0x0\n")
      (by decide) (by decide)⟩

theorem lines_long_line : lines long_line = [List.replicate 505 120 ++ module_name, []] := by
  have h : 10 ∉ List.replicate 505 120 ++ module_name := by
    intro hm
    rcases List.mem_append.mp hm with h1 | h1
    · exact absurd (List.eq_of_mem_replicate h1) (by decide)
    · rw [module_name_eq] at h1; simp at h1
  exact lines_append_newline _ [] h

theorem lines_nul_line : lines nul_line = [0 :: module_name, []] := by
  rw [nul_line, module_name_eq]
  decide

set_option maxRecDepth 100000 in
/-- C8 (as stated) fails: on a 517-byte line that holds the module name across
the 511-byte boundary of the read buffer, and on a line with a NUL byte before
the name, `loopback_module_loaded` returns false although the name occurs in a
line of the file. -/
theorem loopback_module_loaded_misses :
    (loopback_module_loaded (some long_line) = false ∧
        ∃ l ∈ lines long_line, module_name <:+: l) ∧
      (loopback_module_loaded (some nul_line) = false ∧
        ∃ l ∈ lines nul_line, module_name <:+: l) := by
  refine ⟨⟨by decide, List.replicate 505 120 ++ module_name, ?_, ?_⟩,
    ⟨by decide, 0 :: module_name, ?_, ?_⟩⟩
  · rw [lines_long_line]; simp
  · exact List.infix_append' (List.replicate 505 120) module_name []
  · rw [lines_nul_line]; simp
  · exact List.infix_append' [0] module_name []

/-! ### Negotiation -/

theorem try_connect_cases (h : Host) (vcam : virtualcam_data) (device : List Nat) :
    let node := h.node device
    let ok := decide (0 ≤ node.open_ret) && decide (0 ≤ node.querycap_ret) &&
      decide (0 ≤ node.g_fmt_ret)
    (try_connect h vcam device).ret =
        (ok && decide (0 ≤ node.s_parm_ret) && decide (0 ≤ node.s_fmt_ret)) ∧
      attempted (try_connect h vcam device).events = [device] ∧
      closed (try_connect h vcam device).events = [] ∧
      submitted_parms (try_connect h vcam device).events =
        (if ok then [stream_parm h] else []) ∧
      (try_connect h vcam device).vcam.frame_size = (h.width * h.height * 2) % 2 ^ 32 := by
  intro node ok
  simp only [ok, node, try_connect]
  by_cases h1 : (h.node device).open_ret < 0
  · simp [h1, attempted, closed, submitted_parms, not_le.mpr h1]
  · by_cases h2 : (h.node device).querycap_ret < 0
    · simp [h1, h2, attempted, closed, submitted_parms, not_le.mpr h2]
    · by_cases h3 : (h.node device).g_fmt_ret < 0
      · simp [h1, h2, h3, attempted, closed, submitted_parms, not_le.mpr h3]
      · by_cases h4 : (h.node device).s_parm_ret < 0
        · simp [h1, h2, h3, h4, attempted, closed, submitted_parms, not_lt.mp h1, not_lt.mp h2,
            not_lt.mp h3, not_le.mpr h4]
        · by_cases h5 : (h.node device).s_fmt_ret < 0
          · simp [h1, h2, h3, h4, h5, attempted, closed, submitted_parms, not_lt.mp h1,
              not_lt.mp h2, not_lt.mp h3, not_le.mpr h5]
          · simp [h1, h2, h3, h4, h5, attempted, closed, submitted_parms, not_lt.mp h1,
              not_lt.mp h2, not_lt.mp h3, not_lt.mp h4, not_lt.mp h5]

theorem try_connect_ret (h : Host) (vcam : virtualcam_data) (d_name : List Nat) :
    (try_connect h vcam (device_path d_name)).ret = connects h d_name := by
  rw [connects, (try_connect_cases h vcam _).1, (try_connect_cases h (virtualcam_create 0) _).1]

/-- C9: whenever `try_connect` reaches the stream-parameter request (the node
opened and the capability and get-format requests succeeded) it submits
exactly one record, and that record has time-per-frame numerator `fps_den`,
denominator `fps_num` and the time-per-frame capability flag; before that
step it submits none.  A producer rate of (30000, 1001) gives 1001 / 30000. -/
theorem try_connect_stream_parm (h : Host) (vcam : virtualcam_data) (device : List Nat) :
    submitted_parms (try_connect h vcam device).events =
        (if 0 ≤ (h.node device).open_ret ∧ 0 ≤ (h.node device).querycap_ret ∧
            0 ≤ (h.node device).g_fmt_ret then [stream_parm h] else []) ∧
      (stream_parm h).numerator = h.fps_den ∧
      (stream_parm h).denominator = h.fps_num ∧
      (stream_parm h).capability = V4L2_CAP_TIMEPERFRAME := by
  refine ⟨?_, rfl, rfl, rfl⟩
  rw [(try_connect_cases h vcam device).2.2.2.1]
  simp [and_assoc]

theorem try_connect_stream_parm_ntsc :
    submitted_parms
        (try_connect leak_host (virtualcam_create 0) (bytes "/dev/video1")).events =
      [{ type := V4L2_BUF_TYPE_VIDEO_OUTPUT, capability := V4L2_CAP_TIMEPERFRAME,
         numerator := 1001, denominator := 30000 }] := by
  rw [(try_connect_stream_parm leak_host (virtualcam_create 0) (bytes "/dev/video1")).1]
  decide

theorem attempted_append (es fs : List Event) :
    attempted (es ++ fs) = attempted es ++ attempted fs := by
  induction es with
  | nil => rfl
  | cons e es ih => cases e <;> simp [attempted, ih]

theorem closed_append (es fs : List Event) : closed (es ++ fs) = closed es ++ closed fs := by
  induction es with
  | nil => rfl
  | cons e es ih => cases e <;> simp [closed, ih]

theorem connect_loop_spec (h : Host) :
    ∀ (list : List (List Nat)) (vcam : virtualcam_data),
      attempted (connect_loop h vcam list).events =
          (list.takeWhile (fun d => !connects h d) ++
            (list.dropWhile (fun d => !connects h d)).take 1).map device_path ∧
        ((connect_loop h vcam list).ret = true ↔ ∃ d ∈ list, connects h d = true) ∧
        closed (connect_loop h vcam list).events = [] := by
  intro list
  induction list with
  | nil => intro vcam; simp [connect_loop, attempted, closed]
  | cons d rest ih =>
    intro vcam
    have hret := try_connect_ret h vcam d
    have hc := try_connect_cases h vcam (device_path d)
    cases hd : connects h d
    · rw [hd] at hret
      obtain ⟨i1, i2, i3⟩ := ih (try_connect h vcam (device_path d)).vcam
      simp [connect_loop, hret, hd, attempted_append, closed_append, hc.2.1, hc.2.2.1, i1, i2, i3]
    · rw [hd] at hret
      simp [connect_loop, hret, hd, hc.2.1, hc.2.2.1]

/-- C4: when the module is loaded (or the load command succeeds) and the scan
succeeds, `virtualcam_start` attempts the candidates in list order up to and
including the first one whose configuration attempt succeeds and none after
it, and it returns true if and only if the attempt succeeds for some
candidate of the list. -/
theorem virtualcam_start_order (h : Host) (vcam : virtualcam_data) (list : List (List Nat))
    (hmod : loopback_module_loaded h.proc_modules = true ∨ h.modprobe_ret = 0)
    (hscan : h.scandir = some list) :
    attempted (virtualcam_start h vcam).events =
        (list.takeWhile (fun d => !connects h d) ++
          (list.dropWhile (fun d => !connects h d)).take 1).map device_path ∧
      ((virtualcam_start h vcam).ret = true ↔ ∃ d ∈ list, connects h d = true) := by
  obtain ⟨i1, i2, _⟩ := connect_loop_spec h list vcam
  have hgo : (!loopback_module_loaded h.proc_modules && h.modprobe_ret != 0) = false := by
    rcases hmod with hm | hm <;> simp [hm]
  have hev : attempted (if loopback_module_loaded h.proc_modules = true then []
      else [Event.run_command modprobe_command h.modprobe_ret]) = [] := by
    split <;> rfl
  simp only [virtualcam_start, hgo, hscan, Bool.false_eq_true, if_false]
  rw [attempted_append, hev, List.nil_append]
  exact ⟨i1, i2⟩

theorem virtualcam_start_order_witness :
    (loopback_module_loaded leak_host.proc_modules = true ∨ leak_host.modprobe_ret = 0) ∧
      leak_host.scandir = some [bytes "video0", bytes "video1"] ∧
      attempted (virtualcam_start leak_host (virtualcam_create 0)).events =
        (([bytes "video0", bytes "video1"]).takeWhile (fun d => !connects leak_host d) ++
          (([bytes "video0", bytes "video1"]).dropWhile
            (fun d => !connects leak_host d)).take 1).map device_path ∧
      ((virtualcam_start leak_host (virtualcam_create 0)).ret = true ↔
        ∃ d ∈ [bytes "video0", bytes "video1"], connects leak_host d = true) :=
  ⟨Or.inr rfl, rfl,
    virtualcam_start_order leak_host (virtualcam_create 0) [bytes "video0", bytes "video1"]
      (Or.inr rfl) rfl⟩

theorem virtualcam_start_never_closes (h : Host) (vcam : virtualcam_data) :
    closed (virtualcam_start h vcam).events = [] := by
  have hev : closed (if loopback_module_loaded h.proc_modules = true then []
      else [Event.run_command modprobe_command h.modprobe_ret]) = [] := by
    split <;> rfl
  unfold virtualcam_start
  simp only []
  split
  · exact hev
  · split
    · exact hev
    · next list _ =>
      rw [closed_append, hev, (connect_loop_spec h list vcam).2.2]
      rfl

/-- C2 at the failing input: with one candidate that opens (descriptor 3) and
then fails the capability query, followed by one that succeeds (descriptor
4), `virtualcam_start` returns true having opened two handles and closed
none, so two handles are open when it returns. -/
theorem virtualcam_start_leaks :
    (virtualcam_start leak_host (virtualcam_create 0)).ret = true ∧
      opened (virtualcam_start leak_host (virtualcam_create 0)).events = [3, 4] ∧
      closed (virtualcam_start leak_host (virtualcam_create 0)).events = [] ∧
      open_handles [] (virtualcam_start leak_host (virtualcam_create 0)).events = [3, 4] := by
  decide

/-- C5 at the failing inputs: `virtualcam_stop` on a freshly created session
closes descriptor 0, which the session never opened; and after a start that
failed because the only candidate could not be opened (no handle was
opened), `virtualcam_stop` closes the invalid descriptor -1. -/
theorem virtualcam_stop_closes_unopened :
    (∀ output : Nat, closed (virtualcam_stop (virtualcam_create output)).events = [0]) ∧
      (virtualcam_start closed_host (virtualcam_create 0)).ret = false ∧
      opened (virtualcam_start closed_host (virtualcam_create 0)).events = [] ∧
      closed (virtualcam_stop
        (virtualcam_start closed_host (virtualcam_create 0)).vcam).events = [-1] := by
  refine ⟨fun _ => rfl, ?_, ?_, ?_⟩ <;> decide

/-- C6 (as stated) fails: on a fresh session, a start whose only candidate
cannot be opened returns false and leaves `device = -1` and `frame_size = 8`
where both were 0 before the call. -/
theorem virtualcam_start_failure_changes_session :
    (virtualcam_start closed_host (virtualcam_create 0)).ret = false ∧
      (virtualcam_create 0).device = 0 ∧
      (virtualcam_create 0).frame_size = 0 ∧
      (virtualcam_start closed_host (virtualcam_create 0)).vcam.device = -1 ∧
      (virtualcam_start closed_host (virtualcam_create 0)).vcam.frame_size = 8 := by
  decide

theorem connect_loop_frame_size (h : Host) :
    ∀ (list : List (List Nat)) (vcam : virtualcam_data), list ≠ [] →
      (connect_loop h vcam list).vcam.frame_size = (h.width * h.height * 2) % 2 ^ 32 := by
  intro list
  induction list with
  | nil => intro vcam hne; exact absurd rfl hne
  | cons d rest ih =>
    intro vcam _
    have hc := (try_connect_cases h vcam (device_path d)).2.2.2.2
    cases hr : (try_connect h vcam (device_path d)).ret
    · cases rest with
      | nil => simpa [connect_loop, hr] using hc
      | cons e rest =>
        have := ih (try_connect h vcam (device_path d)).vcam (by simp)
        simpa [connect_loop, hr] using this
    · simpa [connect_loop, hr] using hc

/-- C6 (as amended): a start attempt that fails (the load command returns
non-zero, the scan fails, or every candidate is rejected) returns false; the
session is left as it was when no candidate was attempted (load failure, scan
failure, empty candidate list); when at least one candidate was attempted,
`frame_size` holds width * height * 2 (modulo `2 ^ 32`) whatever it held
before. -/
theorem virtualcam_start_failure (h : Host) (vcam : virtualcam_data)
    (hfail : (loopback_module_loaded h.proc_modules = false ∧ h.modprobe_ret ≠ 0) ∨
      h.scandir = none ∨
      ∃ list, h.scandir = some list ∧ ∀ d ∈ list, connects h d = false) :
    (virtualcam_start h vcam).ret = false ∧
      (((loopback_module_loaded h.proc_modules = false ∧ h.modprobe_ret ≠ 0) ∨
          h.scandir = none ∨ h.scandir = some []) →
        (virtualcam_start h vcam).vcam = vcam) ∧
      (¬ (loopback_module_loaded h.proc_modules = false ∧ h.modprobe_ret ≠ 0) →
        ∀ list, h.scandir = some list → list ≠ [] →
          (virtualcam_start h vcam).vcam.frame_size = (h.width * h.height * 2) % 2 ^ 32) := by
  by_cases hload : loopback_module_loaded h.proc_modules = false ∧ h.modprobe_ret ≠ 0
  · have hgo : (!loopback_module_loaded h.proc_modules && h.modprobe_ret != 0) = true := by
      simp [hload.1, hload.2]
    refine ⟨?_, fun _ => ?_, fun hn => absurd hload hn⟩ <;> simp [virtualcam_start, hgo]
  · have hgo : (!loopback_module_loaded h.proc_modules && h.modprobe_ret != 0) = false := by
      cases hl : loopback_module_loaded h.proc_modules
      · have : h.modprobe_ret = 0 := by
          by_contra hne; exact hload ⟨hl, hne⟩
        simp [this]
      · simp
    cases hscan : h.scandir with
    | none =>
      refine ⟨?_, fun _ => ?_, fun _ list hl => ?_⟩
      · simp [virtualcam_start, hgo, hscan]
      · simp [virtualcam_start, hgo, hscan]
      · cases hl
    | some list =>
      have hrej : ∀ d ∈ list, connects h d = false := by
        rcases hfail with hf | hf | ⟨l, hl, hf⟩
        · exact absurd hf hload
        · rw [hscan] at hf; cases hf
        · rw [hscan] at hl; cases hl; exact hf
      have hret : (connect_loop h vcam list).ret = false := by
        cases hr : (connect_loop h vcam list).ret
        · rfl
        · obtain ⟨d, hd, hdc⟩ := (connect_loop_spec h list vcam).2.1.mp hr
          rw [hrej d hd] at hdc; cases hdc
      refine ⟨?_, fun hno => ?_, fun _ l hl hne => ?_⟩
      · simp [virtualcam_start, hgo, hscan, hret]
      · rcases hno with hf | hf | hf
        · exact absurd hf hload
        · cases hf
        · cases hf
          simp [virtualcam_start, hgo, hscan, connect_loop]
      · cases hl
        have := connect_loop_frame_size h list vcam hne
        simpa [virtualcam_start, hgo, hscan] using this

theorem virtualcam_start_failure_witness :
    ((loopback_module_loaded closed_host.proc_modules = false ∧ closed_host.modprobe_ret ≠ 0) ∨
        closed_host.scandir = none ∨
        ∃ list, closed_host.scandir = some list ∧ ∀ d ∈ list, connects closed_host d = false) ∧
      (virtualcam_start closed_host (virtualcam_create 0)).ret = false ∧
      (((loopback_module_loaded closed_host.proc_modules = false ∧
            closed_host.modprobe_ret ≠ 0) ∨
          closed_host.scandir = none ∨ closed_host.scandir = some []) →
        (virtualcam_start closed_host (virtualcam_create 0)).vcam = virtualcam_create 0) ∧
      (¬ (loopback_module_loaded closed_host.proc_modules = false ∧
            closed_host.modprobe_ret ≠ 0) →
        ∀ list, closed_host.scandir = some list → list ≠ [] →
          (virtualcam_start closed_host (virtualcam_create 0)).vcam.frame_size =
            (closed_host.width * closed_host.height * 2) % 2 ^ 32) :=
  ⟨Or.inr (Or.inr ⟨[bytes "video0"], rfl, by decide⟩),
    virtualcam_start_failure closed_host (virtualcam_create 0)
      (Or.inr (Or.inr ⟨[bytes "video0"], rfl, by decide⟩))⟩

/-! ### Frame delivery -/

/-- C7: for a frame of `F ≥ 1` bytes and a device whose first `write` call
accepts `F - 1` bytes and whose second reports an error, `virtual_video` makes
exactly two `write` calls and then returns; it has no return value through
which an error could reach its caller. -/
theorem virtual_video_error (F : Nat) (hF : 1 ≤ F) (write : Nat → Nat → Int)
    (h0 : ∀ count, write 0 count = (F : Int) - 1) (h1 : ∀ count, write 1 count = -1)
    (vcam : virtualcam_data) (hv : vcam.frame_size = F) (fuel : Nat) (hfuel : 2 ≤ fuel) :
    virtual_video write vcam fuel =
        ⟨[⟨vcam.device, 0, F, (F : Int) - 1⟩, ⟨vcam.device, 0, F, -1⟩], true⟩ ∧
      (virtual_video write vcam fuel).calls.length = 2 ∧
      (virtual_video write vcam fuel).returned = true := by
  obtain ⟨n, rfl⟩ : ∃ n, fuel = n + 2 := ⟨fuel - 2, by omega⟩
  have hpos : 0 < F := hF
  have hne : ¬ ((F : Int) - 1 = -1) := by omega
  have hrem : (((F : Int) - ((F : Int) - 1)) % 2 ^ 32).toNat = 1 := by
    have : (F : Int) - ((F : Int) - 1) = 1 := by ring
    rw [this]; decide
  have hrun : virtual_video write vcam (n + 2) =
      ⟨[⟨vcam.device, 0, F, (F : Int) - 1⟩, ⟨vcam.device, 0, F, -1⟩], true⟩ := by
    simp [virtual_video, video_loop, hv, hpos, h0, h1, hne, hrem]
  rw [hrun]
  exact ⟨rfl, rfl, rfl⟩

theorem virtual_video_error_witness :
    (1 ≤ 4) ∧ (∀ count, failing_write 3 0 count = ((4 : Nat) : Int) - 1) ∧
      (∀ count, failing_write 3 1 count = -1) ∧
      virtual_video (failing_write 3) { output := 0, device := 4, frame_size := 4 } 2 =
        ⟨[⟨4, 0, 4, ((4 : Nat) : Int) - 1⟩, ⟨4, 0, 4, -1⟩], true⟩ ∧
      (virtual_video (failing_write 3)
        { output := 0, device := 4, frame_size := 4 } 2).calls.length = 2 ∧
      (virtual_video (failing_write 3)
        { output := 0, device := 4, frame_size := 4 } 2).returned = true :=
  ⟨by decide, fun _ => rfl, fun _ => rfl,
    virtual_video_error 4 (by decide) (failing_write 3) (fun _ => rfl) (fun _ => rfl)
      { output := 0, device := 4, frame_size := 4 } rfl 2 (le_refl 2)⟩

theorem greedy_write_bounds (i count : Nat) (h : 1 ≤ count) :
    1 ≤ greedy_write i count ∧ greedy_write i count ≤ (count : Int) ∧
      greedy_write i count ≠ -1 := by
  unfold greedy_write
  split <;> omega

theorem video_loop_greedy_odd :
    ∀ (fuel frame_size : Nat) (calls : List write_call), frame_size % 2 = 1 → calls ≠ [] →
      (video_loop greedy_write two_byte_session fuel frame_size calls).returned = false := by
  intro fuel
  induction fuel with
  | zero =>
    intro frame_size calls hodd _
    have : frame_size ≠ 0 := by omega
    simp [video_loop, this]
  | succ fuel ih =>
    intro frame_size calls hodd hne
    have hpos : 0 < frame_size := by omega
    have hlen : calls.length ≠ 0 := fun e => hne (List.length_eq_zero.mp e)
    have hw : greedy_write calls.length two_byte_session.frame_size = 2 := by
      simp [greedy_write, hlen, two_byte_session]
    have hodd2 : (((frame_size : Int) - 2) % 2 ^ 32).toNat % 2 = 1 := by omega
    have := ih (((frame_size : Int) - 2) % 2 ^ 32).toNat
      (calls ++ [⟨two_byte_session.device, 0, two_byte_session.frame_size, 2⟩]) hodd2 (by simp)
    simpa [video_loop, hpos, hw] using this

theorem virtual_video_greedy_never_returns (fuel : Nat) :
    (virtual_video greedy_write two_byte_session fuel).returned = false := by
  cases fuel with
  | zero => decide
  | succ fuel =>
    have := video_loop_greedy_odd fuel 1
      [⟨two_byte_session.device, 0, two_byte_session.frame_size, 1⟩] (by decide) (by simp)
    simpa [virtual_video, video_loop, two_byte_session, greedy_write] using this

/-- C3 at the failing input: for a frame of 2 bytes and a device that accepts
1 byte on the first `write` call and the whole request afterwards, the second
call requests 2 bytes from offset 0 although only 1 byte is undelivered, the
device has accepted 3 bytes after two calls, and the loop has not ended. -/
theorem virtual_video_overrequests :
    virtual_video greedy_write two_byte_session 2 =
        ⟨[⟨4, 0, 2, 1⟩, ⟨4, 0, 2, 2⟩], false⟩ ∧
      accepted (virtual_video greedy_write two_byte_session 2).calls = 3 ∧
      two_byte_session.frame_size = 2 := by
  decide

end V4l2Output
